import Mathlib

/-!
Shallow embedding of `main.py` of the price-manager service
(products, single price updates, bulk percentage adjustments and a
price-change history), together with theorems settling the spec claims.

Modelling conventions:
* Python `float` prices and percentages are modelled as `ℚ`; Python's
  `round(x, 2)` (ties to even) is `round2`.
* `datetime.utcnow()` is modelled by one `Time` (a natural number)
  per request: every call inside a single request returns that
  request's timestamp.
* The SQL store is a `Store` record: the `product` table, the
  `price_history` table, the two autoincrement counters, and the
  largest timestamp handed out so far (`clock`).
* An HTTP 404 (`HTTPException(status_code=404, detail=...)`) is
  `Except.error detail`.
-/

namespace Gestor

abbrev Time := Nat

/-- Round a rational to the nearest integer, ties to even, as Python's
builtin `round` does. -/
def roundHalfEven (x : ℚ) : ℤ :=
  let f : ℤ := ⌊x⌋
  let frac : ℚ := x - f
  if frac < 1/2 then f
  else if 1/2 < frac then f + 1
  else if f % 2 = 0 then f else f + 1

/-- `round(x, 2)` of `main.py`: rounding to two decimal places, ties to
even. -/
def round2 (x : ℚ) : ℚ := (roundHalfEven (x * 100) : ℚ) / 100

/-- The `Product` table row (`class Product` in `main.py`). -/
structure Product where
  id : Nat
  name : String
  category : String
  cost : ℚ
  price : ℚ
  created_at : Time
  updated_at : Time
deriving Repr, DecidableEq

/-- The `PriceHistory` table row (`class PriceHistory` in `main.py`). -/
structure PriceHistory where
  id : Nat
  product_id : Nat
  old_price : ℚ
  new_price : ℚ
  reason : Option String
  created_at : Time
deriving Repr, DecidableEq

/-- Request body of `POST /products` (`class ProductCreate`). -/
structure ProductCreate where
  name : String
  category : String
  cost : ℚ
  price : ℚ
deriving Repr, DecidableEq

/-- Request body of `PUT /products/{id}` (`class ProductUpdate`): every
field optional; `none` models a field absent from the request
(`exclude_unset=True`). -/
structure ProductUpdate where
  name : Option String := none
  category : Option String := none
  cost : Option ℚ := none
  price : Option ℚ := none
deriving Repr, DecidableEq

/-- Read representation of a product (`class ProductRead`), carrying the
derived margin. -/
structure ProductRead where
  id : Nat
  name : String
  category : String
  cost : ℚ
  price : ℚ
  created_at : Time
  updated_at : Time
  margin : ℚ
deriving Repr, DecidableEq

/-- Request body of `POST /products/increase`
(`class BulkIncreaseRequest`); the `reason` field defaults to
`"Ajuste masivo"` exactly as the pydantic default does. -/
structure BulkIncreaseRequest where
  percentage : ℚ
  category : Option String := none
  reason : Option String := some "Ajuste masivo"
deriving Repr, DecidableEq

/-- Response body of `POST /products/increase`.  The empty-selection
early return carries only `updated`; `percentage = none` /
`category = none` model keys absent from the JSON object. -/
structure BulkResponse where
  updated : Nat
  percentage : Option ℚ
  category : Option (Option String)
deriving Repr, DecidableEq

/-- The persistent state: both tables, the autoincrement counters and
the last timestamp handed out. -/
structure Store where
  products : List Product
  history : List PriceHistory
  nextProductId : Nat
  nextHistoryId : Nat
  clock : Time
deriving Repr, DecidableEq

/-- The state of a freshly created database (both tables empty,
autoincrement ids starting at 1). -/
def emptyStore : Store := ⟨[], [], 1, 1, 0⟩

/-- `compute_margin` of `main.py`. -/
def compute_margin (cost price : ℚ) : ℚ :=
  if cost = 0 then 0
  else round2 (((price - cost) / cost) * 100)

/-- `product_to_read` of `main.py`. -/
def product_to_read (p : Product) : ProductRead :=
  ⟨p.id, p.name, p.category, p.cost, p.price, p.created_at, p.updated_at,
    compute_margin p.cost p.price⟩

/-- `create_product` of `main.py` (`POST /products`): id store-assigned,
`created_at` and `updated_at` from `datetime.utcnow` at request time `t`. -/
def create_product (s : Store) (data : ProductCreate) (t : Time) :
    Store × Product :=
  let p : Product :=
    ⟨s.nextProductId, data.name, data.category, data.cost, data.price, t, t⟩
  ({ s with
      products := s.products ++ [p],
      nextProductId := s.nextProductId + 1,
      clock := t }, p)

/-- `get_product` of `main.py` (`GET /products/{id}`): `session.get` by
primary key, 404 when absent. -/
def get_product (s : Store) (pid : Nat) : Except String ProductRead :=
  match s.products.find? (fun p => p.id == pid) with
  | none => Except.error "Producto no encontrado"
  | some p => Except.ok (product_to_read p)

/-- The `setattr` loop of `update_product` plus the unconditional
`product.updated_at = datetime.utcnow()`: supplied fields overwrite,
omitted fields stay. -/
def applyUpdate (data : ProductUpdate) (t : Time) (p : Product) : Product :=
  { p with
    name := data.name.getD p.name,
    category := data.category.getD p.category,
    cost := data.cost.getD p.cost,
    price := data.price.getD p.price,
    updated_at := t }

/-- `update_product` of `main.py` (`PUT /products/{id}`): 404 when the
product is absent; otherwise patch the supplied fields, refresh
`updated_at`, and append one history row exactly when the `price` field
was supplied with a value different from the stored one. -/
def update_product (s : Store) (pid : Nat) (data : ProductUpdate)
    (t : Time) : Except String (Store × Product) :=
  match s.products.find? (fun q => q.id == pid) with
  | none => Except.error "Producto no encontrado"
  | some product =>
    let old_price := product.price
    let updated := applyUpdate data t product
    let s1 : Store :=
      { s with
        products := s.products.map (fun q => if q.id == pid then updated else q),
        clock := t }
    match data.price with
    | some newPrice =>
      if newPrice ≠ old_price then
        Except.ok
          ({ s1 with
              history := s1.history ++
                [⟨s.nextHistoryId, product.id, old_price, updated.price,
                  some "Actualización individual", t⟩],
              nextHistoryId := s.nextHistoryId + 1 }, updated)
      else Except.ok (s1, updated)
    | none => Except.ok (s1, updated)

/-- `delete_product` of `main.py` (`DELETE /products/{id}`): 404 when
absent; otherwise delete the row.  History rows are not touched. -/
def delete_product (s : Store) (pid : Nat) (t : Time) :
    Except String Store :=
  if s.products.any (fun p => p.id == pid) then
    Except.ok
      { s with
        products := s.products.filter (fun p => p.id != pid),
        clock := t }
  else Except.error "Producto no encontrado"

/-- The selection predicate of `bulk_increase`: `if payload.category:`
is Python truthiness, so both an absent category and the empty string
disable the filter. -/
def matchesBulk (c : Option String) (p : Product) : Bool :=
  match c with
  | none => true
  | some str => if str = "" then true else p.category == str

/-- The row set `session.exec(query).all()` of `bulk_increase`. -/
def bulkSelect (products : List Product) (c : Option String) :
    List Product :=
  products.filter (matchesBulk c)

/-- `factor = 1 + payload.percentage / 100.0`. -/
def bulkFactor (percentage : ℚ) : ℚ := 1 + percentage / 100

/-- One loop body of `bulk_increase` acting on a product row. -/
def bulkAdjust (factor : ℚ) (t : Time) (p : Product) : Product :=
  { p with price := round2 (p.price * factor), updated_at := t }

/-- The history rows appended by the `bulk_increase` loop: one row per
selected product, ids consecutive from `startId`. -/
def mkBulkRows (startId : Nat) (factor : ℚ) (reason : Option String)
    (t : Time) : List Product → List PriceHistory
  | [] => []
  | p :: rest =>
    ⟨startId, p.id, p.price, round2 (p.price * factor), reason, t⟩ ::
      mkBulkRows (startId + 1) factor reason t rest

/-- `bulk_increase` of `main.py` (`POST /products/increase`): select
(optionally by category), early-return `{"updated": 0}` on an empty
selection, otherwise adjust every selected product, append one history
row each, and report count, percentage and category. -/
def bulk_increase (s : Store) (payload : BulkIncreaseRequest) (t : Time) :
    Store × BulkResponse :=
  let selected := bulkSelect s.products payload.category
  if selected.isEmpty then (s, ⟨0, none, none⟩)
  else
    let factor := bulkFactor payload.percentage
    ({ s with
        products := s.products.map
          (fun p => if matchesBulk payload.category p then bulkAdjust factor t p else p),
        history := s.history ++ mkBulkRows s.nextHistoryId factor payload.reason t selected,
        nextHistoryId := s.nextHistoryId + selected.length,
        clock := t },
     ⟨selected.length, some payload.percentage, some payload.category⟩)

/-- Descending order on history rows by `created_at`
(`order_by(PriceHistory.created_at.desc())`). -/
def histDesc (a b : PriceHistory) : Prop := b.created_at ≤ a.created_at

instance : DecidableRel histDesc := fun a b =>
  inferInstanceAs (Decidable (b.created_at ≤ a.created_at))

instance : IsTotal PriceHistory histDesc :=
  ⟨fun a b => Nat.le_total b.created_at a.created_at⟩

instance : IsTrans PriceHistory histDesc :=
  ⟨fun _ _ _ hab hbc => Nat.le_trans hbc hab⟩

/-- `get_history` of `main.py` (`GET /products/{id}/history`): 404 when
the product is absent; otherwise the rows with this `product_id`,
newest first. -/
def get_history (s : Store) (pid : Nat) : Except String (List PriceHistory) :=
  if s.products.any (fun p => p.id == pid) then
    Except.ok
      (List.insertionSort histDesc
        (s.history.filter (fun h => h.product_id == pid)))
  else Except.error "Producto no encontrado"

/-- The states reachable from a fresh database by the mutating
endpoints, each request carrying a timestamp no earlier than any
already handed out. -/
inductive Reachable : Store → Prop
  | init : Reachable emptyStore
  | create {s : Store} {d : ProductCreate} {t : Time} :
      Reachable s → s.clock ≤ t → Reachable (create_product s d t).1
  | update {s s' : Store} {pid : Nat} {d : ProductUpdate} {t : Time}
      {p : Product} :
      Reachable s → s.clock ≤ t →
      update_product s pid d t = Except.ok (s', p) → Reachable s'
  | delete {s s' : Store} {pid : Nat} {t : Time} :
      Reachable s → s.clock ≤ t →
      delete_product s pid t = Except.ok s' → Reachable s'
  | bulk {s : Store} {payload : BulkIncreaseRequest} {t : Time} :
      Reachable s → s.clock ≤ t → Reachable (bulk_increase s payload t).1

/-- Store sanity invariant: timestamps of every product are ordered and
bounded by the clock, ids are below the autoincrement counter and
pairwise distinct. -/
def Inv (s : Store) : Prop :=
  (∀ p ∈ s.products,
      p.created_at ≤ p.updated_at ∧ p.updated_at ≤ s.clock ∧
      p.id < s.nextProductId) ∧
  s.products.Pairwise (fun a b => a.id ≠ b.id)

/-- Inversion of a successful `update_product`: the found row, the
patched row returned, the product table shape, the clock, and the
history frame when the price field was absent. -/
theorem update_ok_inv {s s' : Store} {pid : Nat} {d : ProductUpdate}
    {t : Time} {pr : Product}
    (hok : update_product s pid d t = Except.ok (s', pr)) :
    ∃ p, s.products.find? (fun q => q.id == pid) = some p ∧
      pr = applyUpdate d t p ∧
      s'.products = s.products.map
        (fun q => if q.id == pid then applyUpdate d t p else q) ∧
      s'.clock = t ∧ s'.nextProductId = s.nextProductId ∧
      (d.price = none → s'.history = s.history) := by
  cases hfind : s.products.find? (fun q => q.id == pid) with
  | none => simp [update_product, hfind] at hok
  | some p =>
    simp only [update_product, hfind] at hok
    refine ⟨p, rfl, ?_⟩
    split at hok
    · next np hdp =>
      split at hok <;>
      · simp only [Except.ok.injEq, Prod.mk.injEq] at hok
        obtain ⟨h1, h2⟩ := hok
        subst h1; subst h2
        exact ⟨rfl, rfl, rfl, rfl, fun h => by simp [hdp] at h⟩
    · next hdp =>
      simp only [Except.ok.injEq, Prod.mk.injEq] at hok
      obtain ⟨h1, h2⟩ := hok
      subst h1; subst h2
      exact ⟨rfl, rfl, rfl, rfl, fun _ => rfl⟩

/-- Inversion of a successful `delete_product`: the row with this id is
filtered out and nothing else changes except the clock. -/
theorem delete_ok_inv {s s' : Store} {pid : Nat} {t : Time}
    (hok : delete_product s pid t = Except.ok s') :
    s'.products = s.products.filter (fun p => p.id != pid) ∧
    s'.history = s.history ∧ s'.clock = t ∧
    s'.nextProductId = s.nextProductId ∧
    s'.nextHistoryId = s.nextHistoryId := by
  simp only [delete_product] at hok
  split at hok
  · simp only [Except.ok.injEq] at hok
    exact hok ▸ ⟨rfl, rfl, rfl, rfl, rfl⟩
  · cases hok

/-- C5: `compute_margin` returns 0 when cost is exactly 0, and otherwise
`((price - cost) / cost) * 100` rounded to 2 decimal places; it is a pure
total function; in particular `compute_margin 0 p = 0` for every `p`,
`compute_margin 100 150 = 50` and `compute_margin 100 100 = 0`. -/
theorem compute_margin_spec :
    (∀ p : ℚ, compute_margin 0 p = 0) ∧
    compute_margin 100 150 = 50 ∧
    compute_margin 100 100 = 0 ∧
    ∀ c p : ℚ, c ≠ 0 → compute_margin c p = round2 (((p - c) / c) * 100) := by
  refine ⟨fun p => by simp [compute_margin],
    by norm_num [compute_margin, round2, roundHalfEven],
    by norm_num [compute_margin, round2, roundHalfEven],
    fun c p hc => by simp [compute_margin, hc]⟩

/-- Witness for `compute_margin_spec` at cost 100, price 150. -/
theorem compute_margin_spec_witness :
    compute_margin 0 7 = 0 ∧
    compute_margin 100 150 = round2 (((150 - 100) / 100) * 100) :=
  ⟨compute_margin_spec.1 7, compute_margin_spec.2.2.2 100 150 (by norm_num)⟩

/-- C1: for an existing product, `update_product` writes a history row
iff the price field is supplied with a value different from the stored
price; when it does, exactly one row is appended, with `old_price` the
prior price, `new_price` the supplied price, and reason the fixed
constant `"Actualización individual"`; when the price is absent or equal
to the stored price, no row is written. -/
theorem update_writes_history_iff
    (s : Store) (pid : Nat) (data : ProductUpdate) (t : Time) (p : Product)
    (hp : s.products.find? (fun q => q.id == pid) = some p) :
    ∃ s' pr, update_product s pid data t = Except.ok (s', pr) ∧
      (∀ np, data.price = some np → np ≠ p.price →
        s'.history = s.history ++
          [⟨s.nextHistoryId, p.id, p.price, np,
            some "Actualización individual", t⟩]) ∧
      (data.price = none → s'.history = s.history) ∧
      (data.price = some p.price → s'.history = s.history) := by
  simp only [update_product, hp]
  cases hdp : data.price with
  | none =>
    exact ⟨_, _, rfl, fun np hnp => absurd hnp (by simp), fun _ => rfl,
      fun h => by simp at h⟩
  | some np =>
    dsimp only
    by_cases h : np = p.price
    · subst h
      rw [if_neg (by simp)]
      refine ⟨_, _, rfl, ?_, fun _ => rfl, fun _ => rfl⟩
      intro np' hnp' hne
      exact absurd (Option.some.inj hnp').symm hne
    · rw [if_pos h]
      refine ⟨_, _, rfl, ?_, fun hc => by simp at hc, ?_⟩
      · intro np' hnp' _
        obtain rfl : np = np' := Option.some.inj hnp'
        simp [applyUpdate, hdp]
      · intro hsome
        exact absurd (Option.some.inj hsome) h

/-- Witness for `update_writes_history_iff`: a store holding one product
with id 1 and price 2, updated with price 3. -/
theorem update_writes_history_iff_witness :
    ∃ s' pr,
      update_product ⟨[⟨1, "pan", "comida", 1, 2, 1, 1⟩], [], 2, 1, 1⟩ 1
          ⟨none, none, none, some 3⟩ 2 = Except.ok (s', pr) ∧
      (∀ np, (some 3 : Option ℚ) = some np → np ≠ (2 : ℚ) →
        s'.history =
          [⟨1, 1, 2, np, some "Actualización individual", 2⟩]) ∧
      ((some 3 : Option ℚ) = none → s'.history = []) ∧
      ((some 3 : Option ℚ) = some 2 → s'.history = []) := by
  have h := update_writes_history_iff
    ⟨[⟨1, "pan", "comida", 1, 2, 1, 1⟩], [], 2, 1, 1⟩ 1
    ⟨none, none, none, some 3⟩ 2 ⟨1, "pan", "comida", 1, 2, 1, 1⟩ (by decide)
  simpa using h

/-- C7: for an existing product, `update_product` applies exactly the
supplied fields, leaves every omitted field (including `created_at`)
unchanged, sets `updated_at` to the current time unconditionally, leaves
other rows untouched, and never writes a history row when the price
field is absent. -/
theorem update_patch_semantics
    (s : Store) (pid : Nat) (data : ProductUpdate) (t : Time) (p : Product)
    (hp : s.products.find? (fun q => q.id == pid) = some p) :
    ∃ s' pr, update_product s pid data t = Except.ok (s', pr) ∧
      pr.id = p.id ∧ pr.created_at = p.created_at ∧ pr.updated_at = t ∧
      (data.name = none → pr.name = p.name) ∧
      (data.category = none → pr.category = p.category) ∧
      (data.cost = none → pr.cost = p.cost) ∧
      (data.price = none → pr.price = p.price) ∧
      (∀ v, data.name = some v → pr.name = v) ∧
      (∀ v, data.category = some v → pr.category = v) ∧
      (∀ v, data.cost = some v → pr.cost = v) ∧
      (∀ v, data.price = some v → pr.price = v) ∧
      (data.price = none → s'.history = s.history) ∧
      (∀ q ∈ s.products, q.id ≠ pid → q ∈ s'.products) := by
  obtain ⟨s', pr, hok⟩ :
      ∃ s' pr, update_product s pid data t = Except.ok (s', pr) := by
    simp only [update_product, hp]
    cases data.price with
    | none => exact ⟨_, _, rfl⟩
    | some np =>
      dsimp only
      by_cases h : np = p.price
      · simp only [if_neg (show ¬np ≠ p.price by simp [h])]
        exact ⟨_, _, rfl⟩
      · simp only [if_pos (show np ≠ p.price from h)]
        exact ⟨_, _, rfl⟩
  obtain ⟨p', hfind', hpr, hprods, _, _, hhist⟩ := update_ok_inv hok
  rw [hp] at hfind'
  obtain rfl : p = p' := Option.some.inj hfind'
  subst hpr
  refine ⟨s', _, hok, rfl, rfl, rfl,
    fun h => by simp [applyUpdate, h],
    fun h => by simp [applyUpdate, h],
    fun h => by simp [applyUpdate, h],
    fun h => by simp [applyUpdate, h],
    fun v h => by simp [applyUpdate, h],
    fun v h => by simp [applyUpdate, h],
    fun v h => by simp [applyUpdate, h],
    fun v h => by simp [applyUpdate, h],
    hhist, ?_⟩
  intro q hq hqid
  rw [hprods]
  have hfix : (if q.id == pid then applyUpdate data t p else q) = q :=
    if_neg (by simpa using hqid)
  exact hfix ▸ List.mem_map_of_mem _ hq

/-- Witness for `update_patch_semantics`: a one-product store, updated
with only the name supplied. -/
theorem update_patch_semantics_witness :
    ∃ s' pr,
      update_product ⟨[⟨1, "pan", "comida", 1, 2, 1, 1⟩], [], 2, 1, 1⟩ 1
          ⟨some "pan integral", none, none, none⟩ 2 = Except.ok (s', pr) ∧
      pr.created_at = 1 ∧ pr.updated_at = 2 ∧ pr.price = 2 ∧
      pr.name = "pan integral" ∧ s'.history = [] := by
  obtain ⟨s', pr, hok, _, hcre, hupd, _, _, _, hpn, hname, _, _, _, hh, _⟩ :=
    update_patch_semantics ⟨[⟨1, "pan", "comida", 1, 2, 1, 1⟩], [], 2, 1, 1⟩ 1
      ⟨some "pan integral", none, none, none⟩ 2
      ⟨1, "pan", "comida", 1, 2, 1, 1⟩ (by decide)
  exact ⟨s', pr, hok, hcre, hupd, hpn rfl, hname _ rfl, hh rfl⟩

/-- The empty-selection early return of `bulk_increase`: the store is
untouched and the response carries only `updated = 0`. -/
theorem bulk_increase_empty (s : Store) (payload : BulkIncreaseRequest)
    (t : Time) (h : bulkSelect s.products payload.category = []) :
    bulk_increase s payload t = (s, ⟨0, none, none⟩) := by
  simp [bulk_increase, h]

/-- The non-empty branch of `bulk_increase`, written out. -/
theorem bulk_increase_ne (s : Store) (payload : BulkIncreaseRequest)
    (t : Time) (h : bulkSelect s.products payload.category ≠ []) :
    bulk_increase s payload t =
      ({ s with
          products := s.products.map
            (fun p => if matchesBulk payload.category p then
              bulkAdjust (bulkFactor payload.percentage) t p else p),
          history := s.history ++
            mkBulkRows s.nextHistoryId (bulkFactor payload.percentage)
              payload.reason t (bulkSelect s.products payload.category),
          nextHistoryId :=
            s.nextHistoryId + (bulkSelect s.products payload.category).length,
          clock := t },
        ⟨(bulkSelect s.products payload.category).length,
          some payload.percentage, some payload.category⟩) := by
  simp only [bulk_increase]
  rw [if_neg (by simpa using h)]

/-- `mkBulkRows` writes one row per selected product. -/
theorem mkBulkRows_length (f : ℚ) (r : Option String) (t : Time) :
    ∀ (l : List Product) (i : Nat), (mkBulkRows i f r t l).length = l.length
  | [], _ => rfl
  | p :: rest, i => by
    simp [mkBulkRows, mkBulkRows_length f r t rest (i + 1)]

/-- Every selected product yields a row in `mkBulkRows` recording its
old price, its rounded new price, the reason and the timestamp. -/
theorem mkBulkRows_mem {l : List Product} {p : Product} (hp : p ∈ l)
    (f : ℚ) (r : Option String) (t : Time) :
    ∀ i, ∃ h ∈ mkBulkRows i f r t l, h.product_id = p.id ∧
      h.old_price = p.price ∧ h.new_price = round2 (p.price * f) ∧
      h.reason = r ∧ h.created_at = t := by
  induction hp with
  | head rest =>
    intro i
    exact ⟨_, List.mem_cons_self _ _, rfl, rfl, rfl, rfl, rfl⟩
  | tail b hb ih =>
    intro i
    obtain ⟨h, hh, hps⟩ := ih (i + 1)
    exact ⟨h, List.mem_cons_of_mem _ hh, hps⟩

/-- C2: on a non-empty selection, every selected product's new price is
its old price times `1 + percentage/100`, rounded to 2 decimals, its
`updated_at` is refreshed, exactly one history row per selected product
is appended recording old and new price with the caller's reason, and
the `reason` field of the request defaults to the fixed string
`"Ajuste masivo"` when not supplied.  No range restriction on the
percentage: the statement holds for every rational percentage. -/
theorem bulk_adjust_spec (s : Store) (payload : BulkIncreaseRequest)
    (t : Time) (hne : bulkSelect s.products payload.category ≠ []) :
    (∀ p ∈ bulkSelect s.products payload.category,
      bulkAdjust (bulkFactor payload.percentage) t p ∈
        (bulk_increase s payload t).1.products ∧
      (bulkAdjust (bulkFactor payload.percentage) t p).price =
        round2 (p.price * (1 + payload.percentage / 100)) ∧
      (bulkAdjust (bulkFactor payload.percentage) t p).updated_at = t) ∧
    (bulk_increase s payload t).1.history =
      s.history ++ mkBulkRows s.nextHistoryId (bulkFactor payload.percentage)
        payload.reason t (bulkSelect s.products payload.category) ∧
    (∀ p ∈ bulkSelect s.products payload.category,
      ∃ h ∈ (bulk_increase s payload t).1.history,
        h.product_id = p.id ∧ h.old_price = p.price ∧
        h.new_price = round2 (p.price * (1 + payload.percentage / 100)) ∧
        h.reason = payload.reason ∧ h.created_at = t) ∧
    (∀ q : ℚ, ({ percentage := q } : BulkIncreaseRequest).reason =
      some "Ajuste masivo") := by
  rw [bulk_increase_ne s payload t hne]
  refine ⟨?_, rfl, ?_, fun q => rfl⟩
  · intro p hp
    have hp' : p ∈ s.products.filter (matchesBulk payload.category) := hp
    have hm := (List.mem_filter.mp hp').2
    have hmem := List.mem_map_of_mem
      (fun q => if matchesBulk payload.category q then
        bulkAdjust (bulkFactor payload.percentage) t q else q)
      (List.mem_filter.mp hp').1
    simp only [hm, if_true] at hmem
    exact ⟨hmem, rfl, rfl⟩
  · intro p hp
    obtain ⟨h, hh, hps⟩ :=
      mkBulkRows_mem hp (bulkFactor payload.percentage) payload.reason t
        s.nextHistoryId
    exact ⟨h, List.mem_append_right _ hh, hps⟩

/-- Concrete store for the bulk witnesses: two products priced 100 and
200. -/
def sBulk : Store :=
  ⟨[⟨1, "a", "x", 1, 100, 1, 1⟩, ⟨2, "b", "y", 1, 200, 1, 1⟩], [], 3, 1, 1⟩

/-- Witness for `bulk_adjust_spec`: a 10% increase on a product priced
100 puts a product priced 110 in the store. -/
theorem bulk_adjust_spec_witness :
    (⟨1, "a", "x", 1, 110, 1, 2⟩ : Product) ∈
      (bulk_increase sBulk ⟨10, none, some "Ajuste masivo"⟩ 2).1.products := by
  have h := (bulk_adjust_spec sBulk ⟨10, none, some "Ajuste masivo"⟩ 2
    (by decide)).1 ⟨1, "a", "x", 1, 100, 1, 1⟩ (by decide)
  have heq : bulkAdjust (bulkFactor 10) 2 (⟨1, "a", "x", 1, 100, 1, 1⟩ : Product) =
      ⟨1, "a", "x", 1, 110, 1, 2⟩ := by
    simp only [bulkAdjust, bulkFactor]
    norm_num [round2, roundHalfEven]
  rw [← heq]
  exact h.1

/-- C4: the bulk path never suppresses no-op price changes: it appends
exactly one history row per selected product, and even a product whose
rounded new price equals its old price gets a row. -/
theorem bulk_no_noop_suppression (s : Store) (payload : BulkIncreaseRequest)
    (t : Time) (hne : bulkSelect s.products payload.category ≠ []) :
    (bulk_increase s payload t).1.history.length =
      s.history.length + (bulkSelect s.products payload.category).length ∧
    ∀ p ∈ bulkSelect s.products payload.category,
      round2 (p.price * bulkFactor payload.percentage) = p.price →
      ∃ h ∈ (bulk_increase s payload t).1.history,
        h.product_id = p.id ∧ h.old_price = p.price ∧
        h.new_price = p.price := by
  rw [bulk_increase_ne s payload t hne]
  constructor
  · simp [mkBulkRows_length]
  · intro p hp heq
    obtain ⟨h, hh, h1, h2, h3, _, _⟩ :=
      mkBulkRows_mem hp (bulkFactor payload.percentage) payload.reason t
        s.nextHistoryId
    exact ⟨h, List.mem_append_right _ hh, h1, h2, heq ▸ h3⟩

/-- Witness for `bulk_no_noop_suppression`: a 0% bulk increase leaves
the price unchanged yet still appends one history row per product. -/
theorem bulk_no_noop_suppression_witness :
    (bulk_increase sBulk ⟨0, none, some "Ajuste masivo"⟩ 2).1.history.length =
      0 + 2 ∧
    ∃ h ∈ (bulk_increase sBulk ⟨0, none, some "Ajuste masivo"⟩ 2).1.history,
      h.product_id = 1 ∧ h.old_price = 100 ∧ h.new_price = 100 := by
  have h := bulk_no_noop_suppression sBulk ⟨0, none, some "Ajuste masivo"⟩ 2
    (by decide)
  refine ⟨h.1, ?_⟩
  exact h.2 ⟨1, "a", "x", 1, 100, 1, 1⟩ (by decide)
    (by norm_num [round2, roundHalfEven, bulkFactor])

/-- C3 counterexample: on an empty selection `bulk_increase` returns a
body carrying neither the percentage applied nor the category filter —
only `updated = 0` — contradicting the claim that every invocation
returns all three. -/
theorem bulk_empty_return_counterexample :
    (bulk_increase emptyStore ⟨10, none, some "Ajuste masivo"⟩ 1).2.percentage =
      none ∧
    (bulk_increase emptyStore ⟨10, none, some "Ajuste masivo"⟩ 1).2.category =
      none ∧
    (bulk_increase emptyStore ⟨10, none, some "Ajuste masivo"⟩ 1).2.updated =
      0 :=
  ⟨rfl, rfl, rfl⟩

/-- C3 (amended): `bulk_increase` always succeeds; on an empty selection
it modifies nothing, writes no history and reports only `updated = 0`
(the percentage and category are omitted from the body); on a non-empty
selection its body carries the count of updated products, the percentage
applied and the category filter used (or its absence). -/
theorem bulk_return_spec (s : Store) (payload : BulkIncreaseRequest)
    (t : Time) :
    (bulkSelect s.products payload.category = [] →
      bulk_increase s payload t = (s, ⟨0, none, none⟩)) ∧
    (bulkSelect s.products payload.category ≠ [] →
      (bulk_increase s payload t).2 =
        ⟨(bulkSelect s.products payload.category).length,
          some payload.percentage, some payload.category⟩) :=
  ⟨fun h => bulk_increase_empty s payload t h,
   fun h => by rw [bulk_increase_ne s payload t h]⟩

/-- Witness for `bulk_return_spec`: the empty store reports zero and
keeps the store; a two-product store reports count 2, the percentage
and the (absent) category. -/
theorem bulk_return_spec_witness :
    bulk_increase emptyStore ⟨10, none, some "Ajuste masivo"⟩ 1 =
      (emptyStore, ⟨0, none, none⟩) ∧
    (bulk_increase sBulk ⟨10, none, some "Ajuste masivo"⟩ 2).2 =
      ⟨2, some 10, some none⟩ := by
  refine ⟨(bulk_return_spec emptyStore ⟨10, none, some "Ajuste masivo"⟩ 1).1
    rfl, ?_⟩
  have h := (bulk_return_spec sBulk ⟨10, none, some "Ajuste masivo"⟩ 2).2
    (by decide)
  exact h.trans (by rfl)

/-- C10: a bulk request whose category is the empty string behaves like
one with no category at all: the filter is disabled, every product is
selected, and the resulting store is identical to the no-category one. -/
theorem bulk_empty_string_category (s : Store) (pct : ℚ) (r : Option String)
    (t : Time) :
    bulkSelect s.products (some "") = s.products ∧
    (bulk_increase s ⟨pct, some "", r⟩ t).1 =
      (bulk_increase s ⟨pct, none, r⟩ t).1 ∧
    (s.products ≠ [] →
      (bulk_increase s ⟨pct, some "", r⟩ t).2.updated = s.products.length) := by
  have hm : matchesBulk (some "") = matchesBulk none :=
    funext fun p => by simp [matchesBulk]
  have hsel : bulkSelect s.products (some "") = s.products := by
    simp [bulkSelect, matchesBulk]
  have hsel' : bulkSelect s.products none = s.products := by
    simp [bulkSelect, matchesBulk]
  refine ⟨hsel, ?_, ?_⟩
  · by_cases hP : s.products = []
    · rw [bulk_increase_empty _ _ _ (hsel.trans hP),
        bulk_increase_empty _ _ _ (hsel'.trans hP)]
    · rw [bulk_increase_ne _ _ _ (by rw [hsel]; exact hP),
        bulk_increase_ne _ _ _ (by rw [hsel']; exact hP)]
      simp only [bulkSelect, hm]
  · intro hP
    rw [bulk_increase_ne _ _ _ (by rw [hsel]; exact hP)]
    simp [hsel]

/-- Witness for `bulk_empty_string_category` on the two-product store. -/
theorem bulk_empty_string_category_witness :
    bulkSelect sBulk.products (some "") = sBulk.products ∧
    (bulk_increase sBulk ⟨10, some "", some "Ajuste masivo"⟩ 2).2.updated =
      2 := by
  have h := bulk_empty_string_category sBulk 10 (some "Ajuste masivo") 2
  exact ⟨h.1, (h.2.2 (by decide)).trans rfl⟩

/-- C8: `get_history` fails with the 404 message exactly when the
product does not exist; for an existing product it returns the history
rows with this `product_id`, sorted newest-first (a descending-order
permutation of the rows of this product); with no matching rows it
returns the empty list rather than an error. -/
theorem history_endpoint (s : Store) (pid : Nat) :
    ((∀ p ∈ s.products, p.id ≠ pid) →
      get_history s pid = Except.error "Producto no encontrado") ∧
    (get_history s pid = Except.error "Producto no encontrado" →
      ∀ p ∈ s.products, p.id ≠ pid) ∧
    (∀ p ∈ s.products, p.id = pid →
      ∃ l, get_history s pid = Except.ok l ∧
        List.Perm l (s.history.filter (fun h => h.product_id == pid)) ∧
        l.Sorted histDesc ∧
        (s.history.filter (fun h => h.product_id == pid) = [] → l = [])) := by
  refine ⟨?_, ?_, ?_⟩
  · intro hall
    have hany : s.products.any (fun q => q.id == pid) = false := by
      rw [List.any_eq_false]
      intro p hp
      simp [hall p hp]
    simp [get_history, hany]
  · intro herr p hp hpe
    have hany : s.products.any (fun q => q.id == pid) = true :=
      List.any_eq_true.mpr ⟨p, hp, by simp [hpe]⟩
    rw [get_history, if_pos hany] at herr
    cases herr
  · intro p hp hpe
    have hany : s.products.any (fun q => q.id == pid) = true :=
      List.any_eq_true.mpr ⟨p, hp, by simp [hpe]⟩
    refine ⟨_, by simp [get_history, hany], List.perm_insertionSort _ _,
      List.sorted_insertionSort _ _, fun hnil => by rw [hnil]; rfl⟩

/-- Concrete store for the history and delete witnesses: one product
(id 1) with two history rows written out of date order, plus a row of
another product id. -/
def sHist : Store :=
  ⟨[⟨1, "a", "x", 1, 100, 1, 5⟩],
   [⟨1, 1, 100, 110, some "r1", 4⟩, ⟨2, 1, 110, 120, none, 3⟩,
    ⟨3, 2, 5, 6, none, 10⟩], 2, 4, 5⟩

/-- Witness for `history_endpoint`: product 1 of `sHist` gets its two
rows back sorted newest-first; a missing product gets the 404. -/
theorem history_endpoint_witness :
    (∃ l, get_history sHist 1 = Except.ok l ∧
      List.Perm l (sHist.history.filter (fun h => h.product_id == 1)) ∧
      l.Sorted histDesc) ∧
    get_history emptyStore 9 = Except.error "Producto no encontrado" := by
  obtain ⟨l, h1, h2, h3, _⟩ :=
    (history_endpoint sHist 1).2.2 ⟨1, "a", "x", 1, 100, 1, 5⟩ (by decide) rfl
  exact ⟨⟨l, h1, h2, h3⟩, (history_endpoint emptyStore 9).1 (by simp [emptyStore])⟩

/-- C9: `delete_product` fails with the 404 message when no product has
this id, and otherwise removes exactly that product: afterwards
`get_product` on the id is a 404, every other product is still present,
and the history table is untouched. -/
theorem delete_spec (s : Store) (pid : Nat) (t : Time) :
    ((∀ p ∈ s.products, p.id ≠ pid) →
      delete_product s pid t = Except.error "Producto no encontrado") ∧
    (∀ p ∈ s.products, p.id = pid →
      ∃ s', delete_product s pid t = Except.ok s' ∧
        s'.history = s.history ∧
        get_product s' pid = Except.error "Producto no encontrado" ∧
        (∀ q, q ∈ s'.products ↔ q ∈ s.products ∧ q.id ≠ pid)) := by
  constructor
  · intro hall
    have hany : s.products.any (fun p => p.id == pid) = false := by
      rw [List.any_eq_false]
      intro p hp
      simp [hall p hp]
    simp [delete_product, hany]
  · intro p hp hpe
    have hany : s.products.any (fun q => q.id == pid) = true :=
      List.any_eq_true.mpr ⟨p, hp, by simp [hpe]⟩
    refine
      ⟨{ s with
          products := s.products.filter (fun q => q.id != pid),
          clock := t },
        by simp [delete_product, hany], rfl, ?_, ?_⟩
    · have hnone : (s.products.filter (fun q => q.id != pid)).find?
          (fun q => q.id == pid) = none := by
        rw [List.find?_eq_none]
        intro q hq
        have hne := (List.mem_filter.mp hq).2
        simp only [bne_iff_ne, ne_eq] at hne
        simp [hne]
      simp [get_product, hnone]
    · intro q
      constructor
      · intro hq
        exact ⟨(List.mem_filter.mp hq).1,
          by simpa using (List.mem_filter.mp hq).2⟩
      · rintro ⟨hq, hqe⟩
        exact List.mem_filter.mpr ⟨hq, by simpa using hqe⟩

/-- Witness for `delete_spec`: deleting product 1 of `sHist` keeps all
three history rows and makes `get_product 1` a 404. -/
theorem delete_spec_witness :
    ∃ s', delete_product sHist 1 6 = Except.ok s' ∧
      s'.history = sHist.history ∧
      get_product s' 1 = Except.error "Producto no encontrado" := by
  obtain ⟨s', h1, h2, h3, _⟩ :=
    (delete_spec sHist 1 6).2 ⟨1, "a", "x", 1, 100, 1, 5⟩ (by decide) rfl
  exact ⟨s', h1, h2, h3⟩

/-- In a list with pairwise distinct ids, membership plus id equality
pins down the element. -/
theorem mem_id_inj {l : List Product}
    (hl : l.Pairwise (fun a b => a.id ≠ b.id)) :
    ∀ q ∈ l, ∀ q' ∈ l, q.id = q'.id → q = q' := by
  induction hl with
  | nil => intro q hq; cases hq
  | cons ha _ ih =>
    intro q hq q' hq' hid
    rcases List.mem_cons.mp hq with rfl | hq2 <;>
      rcases List.mem_cons.mp hq' with rfl | hq2'
    · rfl
    · exact absurd hid (ha _ hq2')
    · exact absurd hid.symm (ha _ hq2)
    · exact ih q hq2 q' hq2' hid

/-- The fresh database satisfies the sanity invariant. -/
theorem inv_empty : Inv emptyStore := by
  constructor
  · intro p hp
    cases hp
  · exact List.Pairwise.nil

/-- `create_product` preserves the invariant when its timestamp is not
in the past. -/
theorem inv_create {s : Store} {d : ProductCreate} {t : Time}
    (hs : Inv s) (ht : s.clock ≤ t) : Inv (create_product s d t).1 := by
  obtain ⟨hmem, hpw⟩ := hs
  constructor
  · intro p hp
    rcases List.mem_append.mp hp with hp | hp
    · obtain ⟨h1, h2, h3⟩ := hmem p hp
      exact ⟨h1, h2.trans ht, Nat.lt_succ_of_lt h3⟩
    · rcases List.mem_singleton.mp hp with rfl
      exact ⟨Nat.le_refl _, Nat.le_refl _, Nat.lt_succ_self _⟩
  · rw [show (create_product s d t).1.products = s.products ++
      [⟨s.nextProductId, d.name, d.category, d.cost, d.price, t, t⟩] from rfl,
      List.pairwise_append]
    refine ⟨hpw, List.pairwise_singleton _ _, ?_⟩
    intro a ha b hb
    rcases List.mem_singleton.mp hb with rfl
    exact Nat.ne_of_lt (hmem a ha).2.2

/-- `update_product` preserves the invariant when its timestamp is not
in the past. -/
theorem inv_update {s s' : Store} {pid : Nat} {d : ProductUpdate}
    {t : Time} {pr : Product}
    (hs : Inv s) (ht : s.clock ≤ t)
    (hok : update_product s pid d t = Except.ok (s', pr)) : Inv s' := by
  obtain ⟨p, hfind, _, hprods, hclock, hnext, _⟩ := update_ok_inv hok
  obtain ⟨hmem, hpw⟩ := hs
  have hpid : p.id = pid := by
    have h := List.find?_some hfind
    simpa using h
  have hid : ∀ q : Product,
      ((if q.id == pid then applyUpdate d t p else q)).id = q.id := by
    intro q
    by_cases h : (q.id == pid) = true
    · have hq : q.id = pid := by simpa using h
      rw [if_pos h]
      show p.id = q.id
      rw [hpid, hq]
    · rw [if_neg h]
  constructor
  · intro q' hq'
    rw [hprods] at hq'
    obtain ⟨q, hq, rfl⟩ := List.mem_map.mp hq'
    obtain ⟨h1, h2, h3⟩ := hmem q hq
    by_cases h : (q.id == pid) = true
    · rw [if_pos h]
      obtain ⟨g1, g2, _⟩ := hmem p (List.mem_of_find?_eq_some hfind)
      refine ⟨?_, ?_, ?_⟩
      · show p.created_at ≤ t
        exact g1.trans (g2.trans ht)
      · show t ≤ s'.clock
        rw [hclock]
      · show p.id < s'.nextProductId
        rw [hnext, hpid]
        have hq : q.id = pid := by simpa using h
        exact hq ▸ h3
    · rw [if_neg h]
      refine ⟨h1, ?_, ?_⟩
      · rw [hclock]; exact h2.trans ht
      · rw [hnext]; exact h3
  · rw [hprods]
    exact List.Pairwise.map _ (fun a b hab => by rw [hid a, hid b]; exact hab)
      hpw

/-- `delete_product` preserves the invariant when its timestamp is not
in the past. -/
theorem inv_delete {s s' : Store} {pid : Nat} {t : Time}
    (hs : Inv s) (ht : s.clock ≤ t)
    (hok : delete_product s pid t = Except.ok s') : Inv s' := by
  obtain ⟨hprods, _, hclock, hnext, _⟩ := delete_ok_inv hok
  obtain ⟨hmem, hpw⟩ := hs
  constructor
  · intro q hq
    rw [hprods] at hq
    obtain ⟨h1, h2, h3⟩ := hmem q (List.mem_of_mem_filter hq)
    exact ⟨h1, by rw [hclock]; exact h2.trans ht, by rw [hnext]; exact h3⟩
  · rw [hprods]
    exact List.Pairwise.sublist (List.filter_sublist _) hpw

/-- `bulk_increase` preserves the invariant when its timestamp is not
in the past. -/
theorem inv_bulk {s : Store} {payload : BulkIncreaseRequest} {t : Time}
    (hs : Inv s) (ht : s.clock ≤ t) : Inv (bulk_increase s payload t).1 := by
  obtain ⟨hmem, hpw⟩ := hs
  by_cases hsel : bulkSelect s.products payload.category = []
  · rw [bulk_increase_empty s payload t hsel]
    exact ⟨hmem, hpw⟩
  · rw [bulk_increase_ne s payload t hsel]
    have hid : ∀ q : Product,
        ((if matchesBulk payload.category q then
          bulkAdjust (bulkFactor payload.percentage) t q else q)).id = q.id := by
      intro q
      by_cases h : matchesBulk payload.category q = true
      · rw [if_pos h]; rfl
      · rw [if_neg h]
    constructor
    · intro q' hq'
      obtain ⟨q, hq, rfl⟩ := List.mem_map.mp hq'
      obtain ⟨h1, h2, h3⟩ := hmem q hq
      by_cases h : matchesBulk payload.category q = true
      · rw [if_pos h]
        exact ⟨h1.trans (h2.trans ht), Nat.le_refl _, h3⟩
      · rw [if_neg h]
        exact ⟨h1, h2.trans ht, h3⟩
    · exact List.Pairwise.map _
        (fun a b hab => by rw [hid a, hid b]; exact hab) hpw

/-- Every reachable store satisfies the sanity invariant. -/
theorem reachable_inv : ∀ {s : Store}, Reachable s → Inv s := by
  intro s h
  induction h with
  | init => exact inv_empty
  | create _ ht ih => exact inv_create ih ht
  | update _ ht hok ih => exact inv_update ih ht hok
  | delete _ ht hok ih => exact inv_delete ih ht hok
  | bulk _ ht ih => exact inv_bulk ih ht

/-- A successful `update_product` never decreases any product's
`updated_at`. -/
theorem update_mono {s s' : Store} {pid : Nat} {d : ProductUpdate}
    {t : Time} {pr : Product}
    (hs : Inv s) (ht : s.clock ≤ t)
    (hok : update_product s pid d t = Except.ok (s', pr)) :
    ∀ q ∈ s.products, ∀ q' ∈ s'.products, q'.id = q.id →
      q.updated_at ≤ q'.updated_at := by
  obtain ⟨p, hfind, _, hprods, _, _, _⟩ := update_ok_inv hok
  intro q hq q' hq' hid
  rw [hprods] at hq'
  obtain ⟨q0, hq0, rfl⟩ := List.mem_map.mp hq'
  by_cases h : (q0.id == pid) = true
  · rw [if_pos h] at hid ⊢
    show q.updated_at ≤ t
    exact (hs.1 q hq).2.1.trans ht
  · rw [if_neg h] at hid ⊢
    rw [mem_id_inj hs.2 q0 hq0 q hq hid]

/-- `bulk_increase` never decreases any product's `updated_at`. -/
theorem bulk_mono {s : Store} {payload : BulkIncreaseRequest} {t : Time}
    (hs : Inv s) (ht : s.clock ≤ t) :
    ∀ q ∈ s.products, ∀ q' ∈ (bulk_increase s payload t).1.products,
      q'.id = q.id → q.updated_at ≤ q'.updated_at := by
  intro q hq q' hq' hid
  by_cases hsel : bulkSelect s.products payload.category = []
  · rw [bulk_increase_empty s payload t hsel] at hq'
    rw [mem_id_inj hs.2 q' hq' q hq hid]
  · rw [bulk_increase_ne s payload t hsel] at hq'
    obtain ⟨q0, hq0, rfl⟩ := List.mem_map.mp hq'
    by_cases h : matchesBulk payload.category q0 = true
    · rw [if_pos h] at hid ⊢
      show q.updated_at ≤ t
      exact (hs.1 q hq).2.1.trans ht
    · rw [if_neg h] at hid ⊢
      rw [mem_id_inj hs.2 q0 hq0 q hq hid]

/-- C6: at creation `created_at = updated_at`; in every reachable store
`created_at ≤ updated_at ≤ clock` for all products; and both
`update_product` and `bulk_increase`, invoked at a timestamp no earlier
than the store's clock, never decrease any product's `updated_at`. -/
theorem timestamps_spec :
    (∀ (s : Store) (d : ProductCreate) (t : Time),
      (create_product s d t).2.created_at =
        (create_product s d t).2.updated_at) ∧
    (∀ s : Store, Reachable s →
      ∀ p ∈ s.products,
        p.created_at ≤ p.updated_at ∧ p.updated_at ≤ s.clock) ∧
    (∀ (s s' : Store) (pid : Nat) (d : ProductUpdate) (t : Time)
        (pr : Product),
      Reachable s → s.clock ≤ t →
      update_product s pid d t = Except.ok (s', pr) →
      ∀ q ∈ s.products, ∀ q' ∈ s'.products, q'.id = q.id →
        q.updated_at ≤ q'.updated_at) ∧
    (∀ (s : Store) (payload : BulkIncreaseRequest) (t : Time),
      Reachable s → s.clock ≤ t →
      ∀ q ∈ s.products, ∀ q' ∈ (bulk_increase s payload t).1.products,
        q'.id = q.id → q.updated_at ≤ q'.updated_at) :=
  ⟨fun _ _ _ => rfl,
   fun _ hr p hp =>
     ⟨((reachable_inv hr).1 p hp).1, ((reachable_inv hr).1 p hp).2.1⟩,
   fun _ _ _ _ _ _ hr ht hok => update_mono (reachable_inv hr) ht hok,
   fun _ _ _ hr ht => bulk_mono (reachable_inv hr) ht⟩

/-- Create request used by the timestamp witness. -/
def dW : ProductCreate := ⟨"pan", "comida", 1, 2⟩

/-- The store after creating `dW` at time 1 in the fresh database. -/
def sW : Store := (create_product emptyStore dW 1).1

/-- Update request (price only) used by the timestamp witness. -/
def uW : ProductUpdate := ⟨none, none, none, some 3⟩

/-- Expected store after updating product 1 of `sW` at time 2. -/
def sW2 : Store :=
  ⟨[⟨1, "pan", "comida", 1, 3, 1, 2⟩],
   [⟨1, 1, 2, 3, some "Actualización individual", 2⟩], 2, 2, 2⟩

/-- Expected returned product of that update. -/
def prW : Product := ⟨1, "pan", "comida", 1, 3, 1, 2⟩

/-- Witness for `timestamps_spec` on a concrete one-product trace. -/
theorem timestamps_spec_witness :
    (create_product emptyStore dW 1).2.created_at =
      (create_product emptyStore dW 1).2.updated_at ∧
    (∀ p ∈ sW.products,
      p.created_at ≤ p.updated_at ∧ p.updated_at ≤ sW.clock) ∧
    (∀ q ∈ sW.products, ∀ q' ∈ sW2.products, q'.id = q.id →
      q.updated_at ≤ q'.updated_at) ∧
    (∀ q ∈ sW.products,
      ∀ q' ∈ (bulk_increase sW ⟨10, none, some "Ajuste masivo"⟩ 2).1.products,
      q'.id = q.id → q.updated_at ≤ q'.updated_at) := by
  have hr : Reachable sW := Reachable.create Reachable.init (by decide)
  exact ⟨timestamps_spec.1 emptyStore dW 1,
    timestamps_spec.2.1 sW hr,
    timestamps_spec.2.2.1 sW sW2 1 uW 2 prW hr (by decide) rfl,
    timestamps_spec.2.2.2 sW ⟨10, none, some "Ajuste masivo"⟩ 2 hr
      (by decide)⟩

end Gestor
